import Mathlib

/-!
# Route matching and dispatch of go-restful (`route.go`)

A shallow embedding of `route.go`: the Go strings are byte sequences, the
functions of package `strings` used by the file are modelled on bytes, the
parameter map is a finite table, and the handler bound to a route acts on an
explicit world state.
-/

namespace Restful

/-! ## Go strings and the functions of package `strings` that route.go calls -/

/-- A Go string is an immutable sequence of bytes; a byte is kept as a natural number. -/
abbrev GoString := List Nat

/-- The bytes of an ASCII string literal of the source. -/
def ascii (s : String) : GoString := s.data.map Char.toNat

/-- The byte of an ASCII character literal of the source. -/
def byte (c : Char) : Nat := c.toNat

namespace strings

/-- Go `strings.Split(s, sep)` for a separator of one byte, which is what every call
in route.go passes: the pieces of `s` between the occurrences of `sep`, in order.
The empty string gives one empty piece. -/
def Split : GoString → Nat → List GoString
  | [], _ => [[]]
  | c :: cs, sep =>
    if c = sep then [] :: Split cs sep
    else (c :: (Split cs sep).headD []) :: (Split cs sep).tail

/-- The search loop of Go `strings.Index`: `i` is the offset of `s` in the whole string. -/
def indexFrom : GoString → GoString → Nat → Int
  | [], substr, i => if substr = [] then (i : Int) else -1
  | c :: cs, substr, i =>
    if substr.isPrefixOf (c :: cs) then (i : Int) else indexFrom cs substr (i + 1)

/-- Go `strings.Index(s, substr)`: the offset of the first occurrence of `substr`
in `s`, or -1 when there is none. -/
def Index (s substr : GoString) : Int := indexFrom s substr 0

/-- Go `strings.HasPrefix(s, p)`: `len(s) >= len(p) && s[:len(p)] == p`. -/
def HasPrefix (s p : GoString) : Bool :=
  decide (p.length ≤ s.length) && (s.take p.length == p)

/-- Go `strings.TrimLeft(s, cutset)` for an ASCII cutset. -/
def TrimLeft (s cutset : GoString) : GoString :=
  s.dropWhile (fun c => decide (c ∈ cutset))

/-- Go `strings.TrimRight(s, cutset)` for an ASCII cutset. -/
def TrimRight (s cutset : GoString) : GoString :=
  (s.reverse.dropWhile (fun c => decide (c ∈ cutset))).reverse

/-- Go `strings.Trim(s, cutset)`: all leading and trailing bytes of `cutset` removed. -/
def Trim (s cutset : GoString) : GoString :=
  TrimRight (TrimLeft s cutset) cutset

end strings

/-! ## The parameter map -/

/-- The entries of a non-nil Go `map[string]string`; the keys are pairwise distinct. -/
abbrev Table := List (GoString × GoString)

/-- The assignment `m[k] = v`: an earlier binding of `k` is replaced. -/
def Table.set (m : Table) (k v : GoString) : Table :=
  (k, v) :: m.filter (fun e => decide (e.1 ≠ k))

/-- The lookup `m[k]` with its presence flag. -/
def Table.get (m : Table) (k : GoString) : Option GoString :=
  (m.find? (fun e => decide (e.1 = k))).map Prod.snd

/-- The keys of the map. -/
def Table.keys (m : Table) : List GoString := m.map Prod.fst

/-- A Go value of type `map[string]string`: `none` is the nil map. -/
abbrev GoMap := Option Table

/-! ## The HTTP request and the views handed to a handler -/

/-- The parts of `*http.Request` that route.go reads: `Method`, `URL.Path` and
`Header.Get`. -/
structure HttpRequest where
  Method : GoString
  URLPath : GoString
  HeaderGet : GoString → GoString

/-- Modelled from the spec: the type `Request` is declared outside route.go; the
request view carries the original request plus the bound path parameters, in the
order of the composite literal `Request{httpRequest, params}`. -/
structure Request where
  httpRequest : HttpRequest
  pathParameters : GoMap

/-- Modelled from the spec: the type `Response` is declared outside route.go; the
response view carries the output sink plus the Accept value, in the order of the
composite literal `Response{httpWriter, accept}`. -/
structure Response (ω : Type) where
  httpWriter : ω
  accept : GoString

/-- Modelled from the spec: the constant `HEADER_Accept` is declared outside
route.go; it is the header name `Accept`. -/
def HEADER_Accept : GoString := ascii "Accept"

/-- Modelled from the spec: the constant `HEADER_ContentType` is declared outside
route.go; it is the header name `Content-Type`. -/
def HEADER_ContentType : GoString := ascii "Content-Type"

/-- Go `http.StatusNotFound`. -/
def StatusNotFound : Int := 404

/-- Go `http.StatusMethodNotAllowed`. -/
def StatusMethodNotAllowed : Int := 405

/-- Go `http.StatusUnsupportedMediaType`. -/
def StatusUnsupportedMediaType : Int := 415

/-- The constant `RouteFunctionCalled` of route.go. -/
def RouteFunctionCalled : Int := 0

/-! ## Route -/

/-- The type `RouteFunction`: a handler receives the two views and acts on the world
state `σ`. -/
abbrev RouteFunction (σ ω : Type) := Request → Response ω → σ → σ

/-- The struct `Route`; a nil `pathParts` slice is the empty list. -/
structure Route (σ ω : Type) where
  Method : GoString
  Produces : GoString
  Consumes : GoString
  Path : GoString
  Function : RouteFunction σ ω
  pathParts : List GoString

variable {σ ω : Type}

/-- The method `postBuild`: `pathParts` becomes `Path` split on "/". -/
def Route.postBuild (self : Route σ ω) : Route σ ω :=
  { self with pathParts := strings.Split self.Path (byte '/') }

/-- The loop of `matchesAccept` over the candidates. The index `[0]` is in range
because `strings.Split` returns at least one piece. -/
def matchesAcceptLoop (produces : GoString) : List GoString → Bool
  | [] => false
  | each :: rest =>
    let withoutQuality := (strings.Split each (byte ';')).headD []
    if strings.Index produces withoutQuality ≠ -1 then true
    else matchesAcceptLoop produces rest

/-- The method `matchesAccept`. -/
def Route.matchesAccept (self : Route σ ω) (mimeTypesWithQuality : GoString) : Bool :=
  if self.Produces.length = 0 ∨ strings.HasPrefix self.Produces (ascii "*/*") = true then true
  else matchesAcceptLoop self.Produces (strings.Split mimeTypesWithQuality (byte ','))

/-- The loop of `matchesContentType` over the candidates. -/
def matchesContentTypeLoop (consumes : GoString) : List GoString → Bool
  | [] => false
  | each :: rest =>
    if strings.Index consumes each ≠ -1 then true
    else matchesContentTypeLoop consumes rest

/-- The method `matchesContentType`. -/
def Route.matchesContentType (self : Route σ ω) (mimeType : GoString) : Bool :=
  if self.Consumes.length = 0 ∨ strings.HasPrefix self.Consumes (ascii "*/*") = true then true
  else matchesContentTypeLoop self.Consumes (strings.Split mimeType (byte ','))

/-- The loop of `matchesPath`: `i` is the index of `key` in `pathParts`, the list
argument holds the template segments from index `i` on. The index `urlParts[i]` is
in range because the loop is entered only when both slices have the same length.
The string literals with braces are written with the hex escapes of the two braces. -/
def matchesPathLoop (urlParts : List GoString) :
    Nat → List GoString → Table → Bool × GoMap
  | _, [], pathParameters => (true, some pathParameters)
  | i, key :: rest, pathParameters =>
    let value := urlParts.getD i []
    if strings.HasPrefix key (ascii "\x7b") = true then
      matchesPathLoop urlParts (i + 1) rest
        (pathParameters.set (strings.Trim key (ascii "\x7b\x7d")) value)
    else if key ≠ value then (false, none)
    else matchesPathLoop urlParts (i + 1) rest pathParameters

/-- The method `matchesPath`. -/
def Route.matchesPath (self : Route σ ω) (urlPath : GoString) : Bool × GoMap :=
  let urlParts := strings.Split urlPath (byte '/')
  if self.pathParts.length ≠ urlParts.length then (false, none)
  else matchesPathLoop urlParts 0 self.pathParts []

/-- The method `dispatch`: the status code and the world state after the call. -/
def Route.dispatch (self : Route σ ω) (httpWriter : ω) (httpRequest : HttpRequest)
    (world : σ) : Int × σ :=
  let (isMatch, params) := self.matchesPath httpRequest.URLPath
  if isMatch = false then (StatusNotFound, world)
  else
    let method := httpRequest.Method
    if self.Method ≠ method then (StatusMethodNotAllowed, world)
    else
      let accept := httpRequest.HeaderGet HEADER_Accept
      if self.matchesAccept accept = false then (StatusUnsupportedMediaType, world)
      else if (method = ascii "POST" ∨ method = ascii "PUT") ∧
          self.matchesContentType (httpRequest.HeaderGet HEADER_ContentType) = false then
        (StatusUnsupportedMediaType, world)
      else
        (RouteFunctionCalled,
          self.Function ⟨httpRequest, params⟩ ⟨httpWriter, accept⟩ world)

/-- The route with its handler replaced by one that appends its arguments to a log:
the log after `dispatch` lists the calls made to the handler. -/
def Route.recording (self : Route σ ω) : Route (List (Request × Response ω)) ω :=
  { Method := self.Method
    Produces := self.Produces
    Consumes := self.Consumes
    Path := self.Path
    Function := fun request response log => log ++ [(request, response)]
    pathParts := self.pathParts }

/-- The calls that `dispatch` makes to the handler of the route, in order. -/
def Route.handlerCalls (self : Route σ ω) (httpWriter : ω) (httpRequest : HttpRequest) :
    List (Request × Response ω) :=
  (self.recording.dispatch httpWriter httpRequest []).2

/-- The condition of the source under which `dispatch` reaches the handler call. -/
def Route.accepts (self : Route σ ω) (httpRequest : HttpRequest) : Prop :=
  (self.matchesPath httpRequest.URLPath).1 = true ∧
  httpRequest.Method = self.Method ∧
  self.matchesAccept (httpRequest.HeaderGet HEADER_Accept) = true ∧
  ((httpRequest.Method ≠ ascii "POST" ∧ httpRequest.Method ≠ ascii "PUT") ∨
    self.matchesContentType (httpRequest.HeaderGet HEADER_ContentType) = true)

/-! ## Concrete routes and requests used as instances -/

/-- A handler that counts its calls. -/
def countingHandler : RouteFunction Nat Unit := fun _ _ n => n + 1

/-- The route declaration `PUT /users/{id}` that produces JSON and consumes XML,
before `postBuild`. -/
def userTemplate : Route Nat Unit :=
  { Method := ascii "PUT"
    Produces := ascii "application/json"
    Consumes := ascii "application/xml"
    Path := ascii "/users/\x7bid\x7d"
    Function := countingHandler
    pathParts := [] }

/-- The built route for `PUT /users/{id}`. -/
def putUserRoute : Route Nat Unit := userTemplate.postBuild

/-- The route declaration `GET /users/{id}/posts/{id}`, which names two parameter
segments alike, before `postBuild`. -/
def postsTemplate : Route Nat Unit :=
  { Method := ascii "GET"
    Produces := []
    Consumes := []
    Path := ascii "/users/\x7bid\x7d/posts/\x7bid\x7d"
    Function := countingHandler
    pathParts := [] }

/-- The route declaration `POST /notes` that produces and consumes JSON, before
`postBuild`. -/
def jsonTemplate : Route Nat Unit :=
  { Method := ascii "POST"
    Produces := ascii "application/json"
    Consumes := ascii "application/json"
    Path := ascii "/notes"
    Function := countingHandler
    pathParts := [] }

/-- The route declaration `GET /` that produces and consumes any media type, before
`postBuild`. -/
def wildcardTemplate : Route Nat Unit :=
  { Method := ascii "GET"
    Produces := ascii "*/*"
    Consumes := ascii "*/*"
    Path := ascii "/"
    Function := countingHandler
    pathParts := [] }

/-- Header lookup of a request that carries the two headers route.go reads. -/
def headersOf (accept contentType : GoString) : GoString → GoString :=
  fun key =>
    if key = HEADER_Accept then accept
    else if key = HEADER_ContentType then contentType
    else []

/-- A request `PUT /users/42` with a JSON body, accepting JSON. -/
def putJsonRequest : HttpRequest :=
  { Method := ascii "PUT"
    URLPath := ascii "/users/42"
    HeaderGet := headersOf (ascii "application/json") (ascii "application/json") }

/-- A request `DELETE /orders` : wrong path and wrong method for `putUserRoute`. -/
def deleteOrdersRequest : HttpRequest :=
  { Method := ascii "DELETE"
    URLPath := ascii "/orders"
    HeaderGet := headersOf (ascii "application/json") [] }

/-- The route declaration `GET` of the given path template that produces JSON, before
`postBuild`. -/
def getTemplate (path : GoString) : Route Nat Unit :=
  { Method := ascii "GET"
    Produces := ascii "application/json"
    Consumes := ascii "application/xml"
    Path := path
    Function := countingHandler
    pathParts := [] }

/-- The built route for `GET /notes`. -/
def getNotesRoute : Route Nat Unit := (getTemplate (ascii "/notes")).postBuild

/-- A request for `/notes` with the given method, Accept header and Content-Type
header. -/
def notesRequest (method accept contentType : GoString) : HttpRequest :=
  { Method := method
    URLPath := ascii "/notes"
    HeaderGet := headersOf accept contentType }

/-! ## Facts about the functions of package `strings` -/

theorem strings.Split_ne_nil (s : GoString) (sep : Nat) : strings.Split s sep ≠ [] := by
  cases s with
  | nil => simp [strings.Split]
  | cons c cs =>
    simp only [strings.Split]
    split_ifs <;> simp

theorem strings.Split_headD (s : GoString) (sep : Nat) :
    (strings.Split s sep).headD [] = s.takeWhile (fun c => decide (c ≠ sep)) := by
  induction s with
  | nil => simp [strings.Split]
  | cons c cs ih =>
    simp only [strings.Split]
    by_cases h : c = sep
    · simp [h]
    · rw [List.takeWhile_cons]
      simpa [h] using ih

theorem strings.HasPrefix_iff (s p : GoString) :
    strings.HasPrefix s p = true ↔ p <+: s := by
  simp only [strings.HasPrefix, Bool.and_eq_true, decide_eq_true_eq, beq_iff_eq]
  constructor
  · rintro ⟨_, h⟩
    exact List.prefix_iff_eq_take.2 h.symm
  · intro h
    exact ⟨h.length_le, (List.prefix_iff_eq_take.1 h).symm⟩

theorem strings.indexFrom_ne_iff (s substr : GoString) (i : Nat) :
    strings.indexFrom s substr i ≠ -1 ↔ substr <:+: s := by
  induction s generalizing i with
  | nil =>
    simp only [strings.indexFrom, List.infix_nil]
    by_cases h : substr = []
    · simp only [h, if_true, iff_true]
      omega
    · simp [h]
  | cons c cs ih =>
    simp only [strings.indexFrom, List.infix_cons_iff]
    by_cases h : substr.isPrefixOf (c :: cs) = true
    · have hp : substr <+: c :: cs := List.isPrefixOf_iff_prefix.1 h
      simp only [h, if_true, hp, true_or, iff_true]
      omega
    · have hp : ¬ substr <+: c :: cs := fun hp => h (List.isPrefixOf_iff_prefix.2 hp)
      simp only [h, hp, false_or]
      exact ih (i + 1)

/-- The test `strings.Index(s, substr) != -1` of the source holds exactly when `substr`
occurs as a contiguous part of `s`. -/
theorem strings.Index_ne_iff (s substr : GoString) :
    strings.Index s substr ≠ -1 ↔ substr <:+: s :=
  strings.indexFrom_ne_iff s substr 0

/-! ## Facts about the parameter map -/

theorem Table.find_filter_ne (m : Table) (k n : GoString) (h : ¬ k = n) :
    (m.filter (fun e => decide (e.1 ≠ k))).find? (fun e => decide (e.1 = n)) =
      m.find? (fun e => decide (e.1 = n)) := by
  induction m with
  | nil => rfl
  | cons e m ih =>
    by_cases he : e.1 = k
    · have hn : ¬ e.1 = n := fun hen => h (he ▸ hen)
      have hf : List.filter (fun e => decide (e.1 ≠ k)) (e :: m) =
          List.filter (fun e => decide (e.1 ≠ k)) m := by
        rw [List.filter_cons]
        simp [he]
      rw [hf, ih, List.find?_cons]
      simp [hn]
    · have hf : List.filter (fun e => decide (e.1 ≠ k)) (e :: m) =
          e :: List.filter (fun e => decide (e.1 ≠ k)) m := by
        rw [List.filter_cons]
        simp [he]
      rw [hf, List.find?_cons, List.find?_cons, ih]

theorem Table.get_set (m : Table) (k v n : GoString) :
    (m.set k v).get n = if k = n then some v else m.get n := by
  simp only [Table.get, Table.set, List.find?_cons]
  by_cases h : k = n
  · simp [h]
  · simp only [h, decide_False, if_false]
    rw [Table.find_filter_ne m k n h]

theorem Table.get_ne_none_iff (m : Table) (n : GoString) :
    m.get n ≠ none ↔ n ∈ m.keys := by
  induction m with
  | nil => simp [Table.get, Table.keys]
  | cons e m ih =>
    simp only [Table.get, Table.keys, List.find?_cons, List.map_cons, List.mem_cons] at ih ⊢
    by_cases he : e.1 = n
    · simp [he]
    · have hne : ¬ n = e.1 := fun h => he h.symm
      simp only [he, decide_False, hne, false_or]
      exact ih

theorem Table.mem_keys_set (m : Table) (k v n : GoString) :
    n ∈ (m.set k v).keys ↔ n = k ∨ n ∈ m.keys := by
  rw [← Table.get_ne_none_iff, Table.get_set, ← Table.get_ne_none_iff]
  by_cases h : k = n
  · simp [h]
  · have hne : ¬ n = k := fun h2 => h h2.symm
    simp [h, hne]

theorem Table.keys_set_nodup (m : Table) (k v : GoString) (h : m.keys.Nodup) :
    (m.set k v).keys.Nodup := by
  simp only [Table.keys, Table.set, List.map_cons, List.nodup_cons, List.mem_map,
    List.mem_filter, decide_eq_true_eq, not_exists, not_and]
  constructor
  · rintro e ⟨_, he⟩ h2
    exact he h2
  · exact (List.Nodup.sublist (List.Sublist.map _ (List.filter_sublist m)) h)

/-! ## The loop of `matchesPath` -/

/-- The loop ends in one of two shapes: no match with the nil map, or a match with a
non-nil map. -/
theorem matchesPathLoop_shape (u : List GoString) (i : Nat) (rest : List GoString)
    (params : Table) :
    matchesPathLoop u i rest params = (false, none) ∨
      ∃ m, matchesPathLoop u i rest params = (true, some m) := by
  induction rest generalizing i params with
  | nil => exact Or.inr ⟨params, rfl⟩
  | cons key rest ih =>
    simp only [matchesPathLoop]
    split_ifs with h1 h2
    · exact ih _ _
    · exact Or.inl rfl
    · exact ih _ _

/-- The loop matches exactly when every literal template segment equals the request
segment at the same index. -/
theorem matchesPathLoop_fst_iff (u : List GoString) (i : Nat) (rest : List GoString)
    (params : Table) :
    (matchesPathLoop u i rest params).1 = true ↔
      ∀ j key, rest[j]? = some key → strings.HasPrefix key (ascii "\x7b") = false →
        key = u.getD (i + j) [] := by
  induction rest generalizing i params with
  | nil => simp [matchesPathLoop]
  | cons key0 rest ih =>
    simp only [matchesPathLoop]
    have shift : ∀ j, u.getD (i + 1 + j) [] = u.getD (i + (j + 1)) [] := by
      intro j
      rw [Nat.add_assoc, Nat.add_comm 1 j]
    split_ifs with h1 h2
    · rw [ih]
      constructor
      · intro h j key hj hk
        cases j with
        | zero =>
          simp only [List.getElem?_cons_zero, Option.some.injEq] at hj
          subst hj
          rw [h1] at hk
          exact absurd hk (by decide)
        | succ j =>
          rw [← shift]
          exact h j key (by simpa using hj) hk
      · intro h j key hj hk
        rw [shift]
        exact h (j + 1) key (by simpa using hj) hk
    · constructor
      · intro h
        exact absurd h (by decide)
      · intro h
        have h3 := h 0 key0 (by simp) (by simpa using h1)
        exact absurd (by simpa using h3) h2
    · rw [ih]
      simp only [ne_eq, not_not] at h2
      constructor
      · intro h j key hj hk
        cases j with
        | zero =>
          simp only [List.getElem?_cons_zero, Option.some.injEq] at hj
          subst hj
          exact h2
        | succ j =>
          rw [← shift]
          exact h j key (by simpa using hj) hk
      · intro h j key hj hk
        rw [shift]
        exact h (j + 1) key (by simpa using hj) hk

/-- The map built by a matching loop: its keys are those of the starting map plus the
names of the parameter segments, and each name is bound by the last segment carrying
it. -/
theorem matchesPathLoop_params (u : List GoString) (i : Nat) (rest : List GoString)
    (params m : Table) (h : matchesPathLoop u i rest params = (true, some m))
    (hnd : params.keys.Nodup) :
    m.keys.Nodup ∧
    (∀ n, n ∈ m.keys ↔ n ∈ params.keys ∨
      ∃ key ∈ rest, strings.HasPrefix key (ascii "\x7b") = true ∧
        strings.Trim key (ascii "\x7b\x7d") = n) ∧
    (∀ n, (∀ key ∈ rest, strings.HasPrefix key (ascii "\x7b") = true →
        strings.Trim key (ascii "\x7b\x7d") ≠ n) → m.get n = params.get n) ∧
    (∀ j key, rest[j]? = some key → strings.HasPrefix key (ascii "\x7b") = true →
      (∀ j2 key2, j < j2 → rest[j2]? = some key2 →
        strings.HasPrefix key2 (ascii "\x7b") = true →
        strings.Trim key2 (ascii "\x7b\x7d") ≠ strings.Trim key (ascii "\x7b\x7d")) →
      m.get (strings.Trim key (ascii "\x7b\x7d")) = some (u.getD (i + j) [])) := by
  induction rest generalizing i params with
  | nil =>
    simp only [matchesPathLoop, Prod.mk.injEq, Option.some.injEq, true_and] at h
    subst h
    refine ⟨hnd, ?_, ?_, ?_⟩
    · intro n
      simp
    · intro n _
      rfl
    · intro j key hj
      simp at hj
  | cons key0 rest ih =>
    have shift : ∀ j, u.getD (i + 1 + j) [] = u.getD (i + (j + 1)) [] := by
      intro j
      rw [Nat.add_assoc, Nat.add_comm 1 j]
    simp only [matchesPathLoop] at h
    split_ifs at h with h1 h2
    · obtain ⟨ih1, ih2, ih3, ih4⟩ := ih (i + 1) _ h (Table.keys_set_nodup _ _ _ hnd)
      refine ⟨ih1, ?_, ?_, ?_⟩
      · intro n
        rw [ih2, Table.mem_keys_set]
        constructor
        · rintro ((h3 | h3) | ⟨key, hk, h3⟩)
          · exact Or.inr ⟨key0, List.mem_cons_self _ _, h1, h3.symm⟩
          · exact Or.inl h3
          · exact Or.inr ⟨key, List.mem_cons_of_mem _ hk, h3⟩
        · rintro (h3 | ⟨key, hk, h3, h4⟩)
          · exact Or.inl (Or.inr h3)
          · rcases List.mem_cons.1 hk with h5 | h5
            · subst h5
              exact Or.inl (Or.inl h4.symm)
            · exact Or.inr ⟨key, h5, h3, h4⟩
      · intro n hn
        rw [ih3 n (fun key hk => hn key (List.mem_cons_of_mem _ hk)), Table.get_set]
        have h3 := hn key0 (List.mem_cons_self _ _) h1
        simp [h3]
      · intro j key hj hk hlast
        cases j with
        | zero =>
          simp only [List.getElem?_cons_zero, Option.some.injEq] at hj
          subst hj
          rw [ih3, Table.get_set]
          · simp
          · intro key2 hk2 hp2
            obtain ⟨j2, hj2⟩ := List.getElem?_of_mem hk2
            exact hlast (j2 + 1) key2 (Nat.succ_pos _) (by simpa using hj2) hp2
        | succ j =>
          rw [← shift]
          refine ih4 j key (by simpa using hj) hk ?_
          intro j2 key2 hlt hj2 hp2
          exact hlast (j2 + 1) key2 (Nat.succ_lt_succ hlt) (by simpa using hj2) hp2
    · exact absurd h (by simp)
    · obtain ⟨ih1, ih2, ih3, ih4⟩ := ih (i + 1) _ h hnd
      have h1f : strings.HasPrefix key0 (ascii "\x7b") = false := by simpa using h1
      refine ⟨ih1, ?_, ?_, ?_⟩
      · intro n
        rw [ih2]
        constructor
        · rintro (h3 | ⟨key, hk, h3⟩)
          · exact Or.inl h3
          · exact Or.inr ⟨key, List.mem_cons_of_mem _ hk, h3⟩
        · rintro (h3 | ⟨key, hk, h3, h4⟩)
          · exact Or.inl h3
          · rcases List.mem_cons.1 hk with h5 | h5
            · subst h5
              rw [h1f] at h3
              exact absurd h3 (by decide)
            · exact Or.inr ⟨key, h5, h3, h4⟩
      · intro n hn
        exact ih3 n (fun key hk => hn key (List.mem_cons_of_mem _ hk))
      · intro j key hj hk hlast
        cases j with
        | zero =>
          simp only [List.getElem?_cons_zero, Option.some.injEq] at hj
          subst hj
          rw [h1f] at hk
          exact absurd hk (by decide)
        | succ j =>
          rw [← shift]
          refine ih4 j key (by simpa using hj) hk ?_
          intro j2 key2 hlt hj2 hp2
          exact hlast (j2 + 1) key2 (Nat.succ_lt_succ hlt) (by simpa using hj2) hp2

/-- The request segment read by the loop at an index in range. -/
theorem getD_of_getElem? (u : List GoString) (i : Nat) (value : GoString)
    (h : u[i]? = some value) : u.getD i [] = value := by
  simp [List.getD, h]

/-! ## Path matching -/

theorem postBuild_pathParts (self : Route σ ω) :
    self.postBuild.pathParts = strings.Split self.Path (byte '/') := rfl

/-- With equally many segments `matchesPath` is the loop started at index 0 with the
empty map. -/
theorem matchesPath_eq_loop (self : Route σ ω) (R : GoString)
    (h : (strings.Split self.Path (byte '/')).length =
      (strings.Split R (byte '/')).length) :
    self.postBuild.matchesPath R =
      matchesPathLoop (strings.Split R (byte '/')) 0
        (strings.Split self.Path (byte '/')) [] := by
  simp only [Route.matchesPath, postBuild_pathParts, h, ne_eq, not_true_eq_false,
    if_false]

theorem getElem?_getD_of_lt (u : List GoString) (i : Nat) (h : i < u.length) :
    u[i]? = some (u.getD i []) := by
  simp [List.getD, List.getElem?_eq_getElem h]

/-- The length test at the head of `matchesPath`. -/
theorem matchesPath_of_length_ne (self : Route σ ω) (R : GoString)
    (h : self.pathParts.length ≠ (strings.Split R (byte '/')).length) :
    self.matchesPath R = (false, none) := by
  simp only [Route.matchesPath]
  rw [if_pos h]

/-- Claim C3. When the request path and the path template of a built route have
different numbers of segments, `matchesPath` returns false together with the nil
map. -/
theorem matchesPath_length_mismatch (self : Route σ ω) (R : GoString)
    (h : (strings.Split self.Path (byte '/')).length ≠
      (strings.Split R (byte '/')).length) :
    self.postBuild.matchesPath R = (false, none) :=
  matchesPath_of_length_ne self.postBuild R h

/-- Claim C3 at the template `/users/{id}` and the request path `/users/42/posts`. -/
theorem matchesPath_length_mismatch_witness :
    (strings.Split userTemplate.Path (byte '/')).length ≠
        (strings.Split (ascii "/users/42/posts") (byte '/')).length ∧
      userTemplate.postBuild.matchesPath (ascii "/users/42/posts") = (false, none) :=
  ⟨by decide, matchesPath_length_mismatch userTemplate (ascii "/users/42/posts")
    (by decide)⟩

/-- Claim C4. With as many request segments as template segments, `matchesPath`
succeeds exactly when every template segment that does not start with an opening
brace equals the request segment at the same index, so segments starting with a brace
accept any request segment; a literal mismatch gives false with the nil map. -/
theorem matchesPath_same_length (self : Route σ ω) (R : GoString)
    (h : (strings.Split self.Path (byte '/')).length =
      (strings.Split R (byte '/')).length) :
    ((self.postBuild.matchesPath R).1 = true ↔
      ∀ (i : Nat) (key value : GoString), (strings.Split self.Path (byte '/'))[i]? = some key →
        (strings.Split R (byte '/'))[i]? = some value →
        ¬ (ascii "\x7b" <+: key) → key = value) ∧
    ((∃ (i : Nat) (key value : GoString), (strings.Split self.Path (byte '/'))[i]? = some key ∧
        (strings.Split R (byte '/'))[i]? = some value ∧
        ¬ (ascii "\x7b" <+: key) ∧ key ≠ value) →
      self.postBuild.matchesPath R = (false, none)) := by
  have hiff : (self.postBuild.matchesPath R).1 = true ↔
      ∀ (i : Nat) (key value : GoString), (strings.Split self.Path (byte '/'))[i]? = some key →
        (strings.Split R (byte '/'))[i]? = some value →
        ¬ (ascii "\x7b" <+: key) → key = value := by
    rw [matchesPath_eq_loop self R h, matchesPathLoop_fst_iff]
    constructor
    · intro hl i key value hk hv hp
      have h1 := hl i key hk (by
        rw [← Bool.not_eq_true, strings.HasPrefix_iff]
        exact hp)
      rw [Nat.zero_add, getD_of_getElem? _ i value hv] at h1
      exact h1
    · intro hr j key hk hp
      have hj : j < (strings.Split R (byte '/')).length := by
        rw [← h]
        exact (List.getElem?_eq_some_iff.1 hk).1
      rw [Nat.zero_add]
      refine hr j key _ hk (getElem?_getD_of_lt _ j hj) ?_
      rw [← strings.HasPrefix_iff, hp]
      decide
  refine ⟨hiff, ?_⟩
  rintro ⟨i, key, value, hk, hv, hp, hne⟩
  rw [matchesPath_eq_loop self R h]
  rcases matchesPathLoop_shape (strings.Split R (byte '/')) 0
    (strings.Split self.Path (byte '/')) [] with hs | ⟨m, hs⟩
  · exact hs
  · exfalso
    have h1 : (self.postBuild.matchesPath R).1 = true := by
      rw [matchesPath_eq_loop self R h, hs]
    exact hne (hiff.1 h1 i key value hk hv hp)

/-- Claim C4 at the template `/users/{id}` and the request path `/users/`, whose last
segment is empty. -/
theorem matchesPath_same_length_witness :
    (userTemplate.postBuild.matchesPath (ascii "/users/")).1 = true ∧
      (((userTemplate.postBuild.matchesPath (ascii "/users/")).1 = true ↔
        ∀ (i : Nat) (key value : GoString), (strings.Split userTemplate.Path (byte '/'))[i]? = some key →
          (strings.Split (ascii "/users/") (byte '/'))[i]? = some value →
          ¬ (ascii "\x7b" <+: key) → key = value) ∧
      ((∃ (i : Nat) (key value : GoString), (strings.Split userTemplate.Path (byte '/'))[i]? = some key ∧
          (strings.Split (ascii "/users/") (byte '/'))[i]? = some value ∧
          ¬ (ascii "\x7b" <+: key) ∧ key ≠ value) →
        userTemplate.postBuild.matchesPath (ascii "/users/") = (false, none))) :=
  ⟨by decide, matchesPath_same_length userTemplate (ascii "/users/") (by decide)⟩

/-- A successful `matchesPath` implies equally many segments. -/
theorem matchesPath_length_of_match (self : Route σ ω) (R : GoString)
    (h : (self.postBuild.matchesPath R).1 = true) :
    (strings.Split self.Path (byte '/')).length =
      (strings.Split R (byte '/')).length := by
  by_contra hne
  rw [matchesPath_of_length_ne self.postBuild R hne] at h
  exact absurd h (by decide)

/-- Claim C5. When `matchesPath` succeeds, the keys of the returned map are exactly the
names of the template segments that start with an opening brace, and each such name is
bound to the request segment at the last template index carrying that name. -/
theorem matchesPath_parameters (self : Route σ ω) (R : GoString)
    (h : (self.postBuild.matchesPath R).1 = true) :
    ∃ m : Table, self.postBuild.matchesPath R = (true, some m) ∧ m.keys.Nodup ∧
      (∀ n : GoString, n ∈ m.keys ↔
        ∃ key ∈ strings.Split self.Path (byte '/'),
          ascii "\x7b" <+: key ∧ strings.Trim key (ascii "\x7b\x7d") = n) ∧
      (∀ (i : Nat) (key value : GoString),
        (strings.Split self.Path (byte '/'))[i]? = some key →
        (strings.Split R (byte '/'))[i]? = some value →
        ascii "\x7b" <+: key →
        (∀ (j : Nat) (key2 : GoString), i < j →
          (strings.Split self.Path (byte '/'))[j]? = some key2 →
          ascii "\x7b" <+: key2 →
          strings.Trim key2 (ascii "\x7b\x7d") ≠ strings.Trim key (ascii "\x7b\x7d")) →
        m.get (strings.Trim key (ascii "\x7b\x7d")) = some value) := by
  have hlen := matchesPath_length_of_match self R h
  have hloop := matchesPath_eq_loop self R hlen
  rcases matchesPathLoop_shape (strings.Split R (byte '/')) 0
    (strings.Split self.Path (byte '/')) [] with hs | ⟨m, hs⟩
  · rw [hloop, hs] at h
    exact absurd h (by decide)
  · obtain ⟨h1, h2, _, h4⟩ := matchesPathLoop_params _ 0 _ [] m hs (by simp [Table.keys])
    refine ⟨m, hloop.trans hs, h1, ?_, ?_⟩
    · intro n
      rw [h2]
      simp only [Table.keys, List.map_nil, List.not_mem_nil, false_or, strings.HasPrefix_iff]
    · intro i key value hk hv hp hlast
      have h5 := h4 i key hk ((strings.HasPrefix_iff _ _).2 hp) (by
        intro j key2 hlt hk2 hp2
        exact hlast j key2 hlt hk2 ((strings.HasPrefix_iff _ _).1 hp2))
      rw [Nat.zero_add, getD_of_getElem? _ i value hv] at h5
      exact h5

/-- Claim C5 at the two examples: `/users/{id}` with `/users/42` binds id to 42, and
`/users/{id}/posts/{id}` with `/users/42/posts/7` binds id to 7. -/
theorem matchesPath_parameters_witness :
    userTemplate.postBuild.matchesPath (ascii "/users/42") =
        (true, some [(ascii "id", ascii "42")]) ∧
      postsTemplate.postBuild.matchesPath (ascii "/users/42/posts/7") =
        (true, some [(ascii "id", ascii "7")]) ∧
      ∃ m : Table, postsTemplate.postBuild.matchesPath (ascii "/users/42/posts/7") =
          (true, some m) ∧ m.keys.Nodup ∧
        (∀ n : GoString, n ∈ m.keys ↔
          ∃ key ∈ strings.Split postsTemplate.Path (byte '/'),
            ascii "\x7b" <+: key ∧ strings.Trim key (ascii "\x7b\x7d") = n) ∧
        (∀ (i : Nat) (key value : GoString),
          (strings.Split postsTemplate.Path (byte '/'))[i]? = some key →
          (strings.Split (ascii "/users/42/posts/7") (byte '/'))[i]? = some value →
          ascii "\x7b" <+: key →
          (∀ (j : Nat) (key2 : GoString), i < j →
            (strings.Split postsTemplate.Path (byte '/'))[j]? = some key2 →
            ascii "\x7b" <+: key2 →
            strings.Trim key2 (ascii "\x7b\x7d") ≠
              strings.Trim key (ascii "\x7b\x7d")) →
          m.get (strings.Trim key (ascii "\x7b\x7d")) = some value) :=
  ⟨by decide, by decide,
    matchesPath_parameters postsTemplate (ascii "/users/42/posts/7") (by decide)⟩

/-! ## Media type negotiation -/

theorem matchesAcceptLoop_iff (produces : GoString) (cands : List GoString) :
    matchesAcceptLoop produces cands = true ↔
      ∃ each ∈ cands,
        each.takeWhile (fun c => decide (c ≠ byte ';')) <:+: produces := by
  induction cands with
  | nil => simp [matchesAcceptLoop]
  | cons each rest ih =>
    have hstep : matchesAcceptLoop produces (each :: rest) =
        if strings.Index produces ((strings.Split each (byte ';')).headD []) ≠ -1
        then true else matchesAcceptLoop produces rest := rfl
    rw [hstep, strings.Split_headD]
    by_cases h : each.takeWhile (fun c => decide (c ≠ byte ';')) <:+: produces
    · rw [if_pos ((strings.Index_ne_iff _ _).2 h)]
      exact ⟨fun _ => ⟨each, List.mem_cons_self _ _, h⟩, fun _ => rfl⟩
    · have hi : ¬ strings.Index produces
          (each.takeWhile (fun c => decide (c ≠ byte ';'))) ≠ -1 :=
        fun hi => h ((strings.Index_ne_iff _ _).1 hi)
      rw [if_neg hi, ih]
      constructor
      · rintro ⟨e, he, h5⟩
        exact ⟨e, List.mem_cons_of_mem _ he, h5⟩
      · rintro ⟨e, he, h5⟩
        rcases List.mem_cons.1 he with h6 | h6
        · subst h6
          exact absurd h5 h
        · exact ⟨e, h6, h5⟩

theorem matchesContentTypeLoop_iff (consumes : GoString) (cands : List GoString) :
    matchesContentTypeLoop consumes cands = true ↔
      ∃ each ∈ cands, each <:+: consumes := by
  induction cands with
  | nil => simp [matchesContentTypeLoop]
  | cons each rest ih =>
    have hstep : matchesContentTypeLoop consumes (each :: rest) =
        if strings.Index consumes each ≠ -1
        then true else matchesContentTypeLoop consumes rest := rfl
    rw [hstep]
    by_cases h : each <:+: consumes
    · rw [if_pos ((strings.Index_ne_iff _ _).2 h)]
      exact ⟨fun _ => ⟨each, List.mem_cons_self _ _, h⟩, fun _ => rfl⟩
    · have hi : ¬ strings.Index consumes each ≠ -1 :=
        fun hi => h ((strings.Index_ne_iff _ _).1 hi)
      rw [if_neg hi, ih]
      constructor
      · rintro ⟨e, he, h5⟩
        exact ⟨e, List.mem_cons_of_mem _ he, h5⟩
      · rintro ⟨e, he, h5⟩
        rcases List.mem_cons.1 he with h6 | h6
        · subst h6
          exact absurd h5 h
        · exact ⟨e, h6, h5⟩

/-- Claim C6. With Produces `application/json`, `matchesAccept` rejects the Accept header
`text/html, application/json;q=0.9`: the second candidate keeps the space that follows
the comma and is no part of Produces. Without that space the header is accepted. -/
theorem matchesAccept_space_after_comma :
    jsonTemplate.matchesAccept (ascii "text/html, application/json;q=0.9") = false ∧
      strings.Split (ascii "text/html, application/json;q=0.9") (byte ',') =
        [ascii "text/html", ascii " application/json;q=0.9"] ∧
      jsonTemplate.matchesAccept (ascii "text/html,application/json;q=0.9") = true := by
  decide

/-- Claim C7. For a route whose Produces is neither empty nor starts with `*/*`,
`matchesAccept` holds exactly when some comma-separated candidate of the header, cut at
its first semicolon, occurs as a contiguous part of Produces. -/
theorem matchesAccept_iff_substring (self : Route σ ω) (accept : GoString)
    (h1 : self.Produces ≠ []) (h2 : ¬ (ascii "*/*" <+: self.Produces)) :
    self.matchesAccept accept = true ↔
      ∃ each ∈ strings.Split accept (byte ','),
        each.takeWhile (fun c => decide (c ≠ byte ';')) <:+: self.Produces := by
  have h3 : ¬ (self.Produces.length = 0 ∨
      strings.HasPrefix self.Produces (ascii "*/*") = true) := by
    rw [strings.HasPrefix_iff, List.length_eq_zero]
    exact fun h => h.elim h1 h2
  simp only [Route.matchesAccept]
  rw [if_neg h3, matchesAcceptLoop_iff]

/-- Claim C7 at Produces `application/json` and the Accept candidate `json`, which is
accepted. -/
theorem matchesAccept_iff_substring_witness :
    jsonTemplate.matchesAccept (ascii "json") = true ∧
      (jsonTemplate.matchesAccept (ascii "json") = true ↔
        ∃ each ∈ strings.Split (ascii "json") (byte ','),
          each.takeWhile (fun c => decide (c ≠ byte ';')) <:+: jsonTemplate.Produces) :=
  ⟨by decide, matchesAccept_iff_substring jsonTemplate (ascii "json") (by decide)
    (by decide)⟩

/-- Claim C8. A route whose Produces is empty or starts with `*/*` accepts every Accept
header, the empty one included. -/
theorem matchesAccept_wildcard (self : Route σ ω) (accept : GoString)
    (h : self.Produces = [] ∨ ascii "*/*" <+: self.Produces) :
    self.matchesAccept accept = true := by
  have h3 : self.Produces.length = 0 ∨
      strings.HasPrefix self.Produces (ascii "*/*") = true := by
    rw [strings.HasPrefix_iff, List.length_eq_zero]
    exact h
  simp only [Route.matchesAccept]
  rw [if_pos h3]

/-- Claim C8 at Produces `*/*` and at the empty Produces, with the empty Accept header. -/
theorem matchesAccept_wildcard_witness :
    wildcardTemplate.matchesAccept [] = true ∧ postsTemplate.matchesAccept [] = true :=
  ⟨matchesAccept_wildcard wildcardTemplate [] (Or.inr (by decide)),
    matchesAccept_wildcard postsTemplate [] (Or.inl rfl)⟩

/-- Claim C9. For a route whose Consumes is neither empty nor starts with `*/*`,
`matchesContentType` holds exactly when some comma-separated candidate of the header,
taken whole with any parameters after a semicolon, occurs as a contiguous part of
Consumes. -/
theorem matchesContentType_iff_substring (self : Route σ ω) (contentType : GoString)
    (h1 : self.Consumes ≠ []) (h2 : ¬ (ascii "*/*" <+: self.Consumes)) :
    self.matchesContentType contentType = true ↔
      ∃ each ∈ strings.Split contentType (byte ','), each <:+: self.Consumes := by
  have h3 : ¬ (self.Consumes.length = 0 ∨
      strings.HasPrefix self.Consumes (ascii "*/*") = true) := by
    rw [strings.HasPrefix_iff, List.length_eq_zero]
    exact fun h => h.elim h1 h2
  simp only [Route.matchesContentType]
  rw [if_neg h3, matchesContentTypeLoop_iff]

/-- Claim C9 at the media type list `application/json` and the header value
`application/json;q=0.9`: `matchesAccept` holds and `matchesContentType` does not. -/
theorem matchesContentType_iff_substring_witness :
    jsonTemplate.Produces = jsonTemplate.Consumes ∧
      jsonTemplate.matchesAccept (ascii "application/json;q=0.9") = true ∧
      jsonTemplate.matchesContentType (ascii "application/json;q=0.9") = false ∧
      (jsonTemplate.matchesContentType (ascii "application/json;q=0.9") = true ↔
        ∃ each ∈ strings.Split (ascii "application/json;q=0.9") (byte ','),
          each <:+: jsonTemplate.Consumes) :=
  ⟨by decide, by decide, by decide,
    matchesContentType_iff_substring jsonTemplate (ascii "application/json;q=0.9")
      (by decide) (by decide)⟩

/-! ## Dispatch -/

theorem recording_matchesPath (self : Route σ ω) (p : GoString) :
    self.recording.matchesPath p = self.matchesPath p := rfl

theorem recording_matchesAccept (self : Route σ ω) (a : GoString) :
    self.recording.matchesAccept a = self.matchesAccept a := rfl

theorem recording_matchesContentType (self : Route σ ω) (a : GoString) :
    self.recording.matchesContentType a = self.matchesContentType a := rfl

/-- The world after `dispatch` and its status code when the route accepts the request. -/
theorem dispatch_of_accepts (self : Route σ ω) (w : ω) (q : HttpRequest) (s : σ)
    (h : self.accepts q) :
    self.dispatch w q s =
      (0, self.Function ⟨q, (self.matchesPath q.URLPath).2⟩
            ⟨w, q.HeaderGet HEADER_Accept⟩ s) := by
  obtain ⟨h1, h2, h3, h4⟩ := h
  rcases hm : self.matchesPath q.URLPath with ⟨b, p⟩
  rw [hm] at h1
  simp only at h1
  subst h1
  simp only [Route.dispatch, hm, RouteFunctionCalled]
  rcases h4 with ⟨h5, h6⟩ | h5
  · rw [h2] at h5 h6
    simp [h2, h3, h5, h6]
  · simp [h2, h3, h5]

/-- The world after `dispatch` and its status code when the route rejects the request. -/
theorem dispatch_of_not_accepts (self : Route σ ω) (w : ω) (q : HttpRequest) (s : σ)
    (h : ¬ self.accepts q) :
    (self.dispatch w q s).2 = s ∧
      ((self.dispatch w q s).1 = 404 ∨ (self.dispatch w q s).1 = 405 ∨
        (self.dispatch w q s).1 = 415) := by
  rcases hm : self.matchesPath q.URLPath with ⟨b, p⟩
  simp only [Route.accepts, hm] at h
  simp only [Route.dispatch, hm, StatusNotFound, StatusMethodNotAllowed,
    StatusUnsupportedMediaType, RouteFunctionCalled]
  cases b
  · simp
  · by_cases h2 : self.Method = q.Method
    · by_cases h3 : self.matchesAccept (q.HeaderGet HEADER_Accept) = true
      · have h4 : (q.Method = ascii "POST" ∨ q.Method = ascii "PUT") ∧
            self.matchesContentType (q.HeaderGet HEADER_ContentType) = false := by
          by_contra hc
          apply h
          refine ⟨rfl, h2.symm, h3, ?_⟩
          by_cases h5 : self.matchesContentType (q.HeaderGet HEADER_ContentType) = true
          · exact Or.inr h5
          · left
            simp only [Bool.not_eq_true] at h5
            constructor
            · intro h6; exact hc ⟨Or.inl h6, h5⟩
            · intro h6; exact hc ⟨Or.inr h6, h5⟩
        simp [h2, h3, h4]
      · simp [h2, h3]
    · simp [h2]

theorem recording_accepts (self : Route σ ω) (q : HttpRequest) :
    self.recording.accepts q ↔ self.accepts q := Iff.rfl

theorem dispatch_code_zero_iff (self : Route σ ω) (w : ω) (q : HttpRequest) (s : σ) :
    (self.dispatch w q s).1 = 0 ↔ self.accepts q := by
  constructor
  · intro h
    by_contra hn
    rcases (dispatch_of_not_accepts self w q s hn).2 with h1 | h1 | h1 <;>
      rw [h1] at h <;> exact absurd h (by decide)
  · intro h
    rw [dispatch_of_accepts self w q s h]

/-- Claim C1. `dispatch` always returns one of the codes 0, 404, 405, 415; it returns 0
exactly when the path matches, the method equals `Route.Method`, `matchesAccept` holds
for the Accept header and either the method is neither POST nor PUT or
`matchesContentType` holds for the Content-Type header; in that case the handler is
called exactly once, with the parameter map of `matchesPath` and the original request,
and on every other code the handler is not called and the world is unchanged. -/
theorem dispatch_total_closed (self : Route σ ω) (w : ω) (q : HttpRequest) (s : σ) :
    ((self.dispatch w q s).1 = 0 ∨ (self.dispatch w q s).1 = 404 ∨
      (self.dispatch w q s).1 = 405 ∨ (self.dispatch w q s).1 = 415) ∧
    ((self.dispatch w q s).1 = 0 ↔
      ((self.matchesPath q.URLPath).1 = true ∧ q.Method = self.Method ∧
        self.matchesAccept (q.HeaderGet HEADER_Accept) = true ∧
        ((q.Method ≠ ascii "POST" ∧ q.Method ≠ ascii "PUT") ∨
          self.matchesContentType (q.HeaderGet HEADER_ContentType) = true))) ∧
    (self.handlerCalls w q =
        [(⟨q, (self.matchesPath q.URLPath).2⟩, ⟨w, q.HeaderGet HEADER_Accept⟩)] ↔
      (self.dispatch w q s).1 = 0) ∧
    (self.handlerCalls w q = [] ↔ (self.dispatch w q s).1 ≠ 0) ∧
    ((self.dispatch w q s).1 = 0 →
      (self.dispatch w q s).2 =
        self.Function ⟨q, (self.matchesPath q.URLPath).2⟩
          ⟨w, q.HeaderGet HEADER_Accept⟩ s) ∧
    ((self.dispatch w q s).1 ≠ 0 → (self.dispatch w q s).2 = s) := by
  have hz := dispatch_code_zero_iff self w q s
  by_cases ha : self.accepts q
  · have hd := dispatch_of_accepts self w q s ha
    have hr := dispatch_of_accepts self.recording w q []
      ((recording_accepts self q).2 ha)
    have hc : self.handlerCalls w q =
        [(⟨q, (self.matchesPath q.URLPath).2⟩, ⟨w, q.HeaderGet HEADER_Accept⟩)] := by
      simp only [Route.handlerCalls, hr]
      rfl
    refine ⟨Or.inl (hz.2 ha), hz, ?_, ?_, ?_, ?_⟩
    · exact ⟨fun _ => hz.2 ha, fun _ => hc⟩
    · rw [hc]
      simp [hz.2 ha]
    · intro _
      rw [hd]
    · intro h
      exact absurd (hz.2 ha) h
  · have hd := dispatch_of_not_accepts self w q s ha
    have hr := dispatch_of_not_accepts self.recording w q []
      (fun h => ha ((recording_accepts self q).1 h))
    have hc : self.handlerCalls w q = [] := hr.1
    have hne : (self.dispatch w q s).1 ≠ 0 := fun h => ha (hz.1 h)
    refine ⟨Or.inr hd.2, hz, ?_, ?_, ?_, ?_⟩
    · rw [hc]
      constructor
      · intro h
        exact absurd h (by simp)
      · intro h
        exact absurd h hne
    · exact ⟨fun _ => hne, fun _ => hc⟩
    · intro h
      exact absurd h hne
    · intro _
      exact hd.1

/-- Claim C2. When `matchesPath` does not match the URL path, `dispatch` returns 404
whatever the method and the headers are, so a wrong path together with a wrong method
gives 404 and not 405; the handler is not called. -/
theorem dispatch_path_precedes_method (self : Route σ ω) (w : ω) (q : HttpRequest)
    (s : σ) (h : (self.matchesPath q.URLPath).1 = false) :
    self.dispatch w q s = (404, s) ∧ (self.dispatch w q s).1 ≠ 405 ∧
      self.handlerCalls w q = [] := by
  have key : ∀ {τ : Type} (r : Route τ ω) (t : τ),
      (r.matchesPath q.URLPath).1 = false → r.dispatch w q t = (404, t) := by
    intro τ r t hr
    rcases hm : r.matchesPath q.URLPath with ⟨b, p⟩
    rw [hm] at hr
    simp only at hr
    subst hr
    simp [Route.dispatch, hm, StatusNotFound]
  refine ⟨key self s h, ?_, ?_⟩
  · rw [key self s h]
    show (404 : Int) ≠ 405
    decide
  · simp only [Route.handlerCalls]
    rw [key self.recording [] (by rw [recording_matchesPath]; exact h)]

/-- Claim C2 at a request with a wrong path and a wrong method. -/
theorem dispatch_path_precedes_method_witness :
    deleteOrdersRequest.Method ≠ putUserRoute.Method ∧
      (putUserRoute.dispatch () deleteOrdersRequest 0 = (404, 0) ∧
        (putUserRoute.dispatch () deleteOrdersRequest 0).1 ≠ 405 ∧
        putUserRoute.handlerCalls () deleteOrdersRequest = []) :=
  ⟨by decide, dispatch_path_precedes_method putUserRoute () deleteOrdersRequest 0
    (by decide)⟩

/-- Claim C10. For a POST or PUT request whose path and method match the route and whose
Accept header passes `matchesAccept`, `dispatch` returns 415 without calling the handler
whenever `matchesContentType` fails for the Content-Type header. -/
theorem dispatch_unsupported_content_type (self : Route σ ω) (w : ω) (q : HttpRequest)
    (s : σ) (hm : q.Method = ascii "POST" ∨ q.Method = ascii "PUT")
    (hp : (self.matchesPath q.URLPath).1 = true) (he : q.Method = self.Method)
    (ha : self.matchesAccept (q.HeaderGet HEADER_Accept) = true)
    (hc : self.matchesContentType (q.HeaderGet HEADER_ContentType) = false) :
    self.dispatch w q s = (415, s) ∧ self.handlerCalls w q = [] := by
  have key : ∀ {τ : Type} (r : Route τ ω) (t : τ),
      (r.matchesPath q.URLPath).1 = true → q.Method = r.Method →
      r.matchesAccept (q.HeaderGet HEADER_Accept) = true →
      r.matchesContentType (q.HeaderGet HEADER_ContentType) = false →
      r.dispatch w q t = (415, t) := by
    intro τ r t h1 h2 h3 h4
    rcases hmp : r.matchesPath q.URLPath with ⟨b, p⟩
    rw [hmp] at h1
    simp only at h1
    subst h1
    rw [h2] at hm
    simp [Route.dispatch, hmp, StatusUnsupportedMediaType, h2, h3, h4, hm]
  exact ⟨key self s hp he ha hc, by
    simp only [Route.handlerCalls]
    rw [key self.recording [] hp he ha hc]⟩

/-- Claim C10 at Consumes `application/xml` and a PUT request with Content-Type
`application/json`. -/
theorem dispatch_unsupported_content_type_witness :
    putUserRoute.Consumes = ascii "application/xml" ∧
      putJsonRequest.Method = ascii "PUT" ∧
      putJsonRequest.HeaderGet HEADER_ContentType = ascii "application/json" ∧
      (putUserRoute.dispatch () putJsonRequest 0 = (415, 0) ∧
        putUserRoute.handlerCalls () putJsonRequest = []) :=
  ⟨by decide, by decide, by decide,
    dispatch_unsupported_content_type putUserRoute () putJsonRequest 0
      (Or.inr (by decide)) (by decide) (by decide) (by decide) (by decide)⟩

/-! ## Dispatch: the order of the checks -/

/-- The calls made to the handler are none exactly when the route rejects the
request. -/
theorem handlerCalls_eq_nil_iff (self : Route σ ω) (w : ω) (q : HttpRequest) :
    self.handlerCalls w q = [] ↔ ¬ self.accepts q := by
  constructor
  · intro h ha
    have hr := dispatch_of_accepts self.recording w q []
      ((recording_accepts self q).2 ha)
    simp only [Route.handlerCalls, hr] at h
    exact absurd h (by simp [Route.recording])
  · intro h
    exact (dispatch_of_not_accepts self.recording w q []
      (fun ha => h ((recording_accepts self q).1 ha))).1

/-- The single call made to the handler when the route accepts the request. -/
theorem handlerCalls_of_accepts (self : Route σ ω) (w : ω) (q : HttpRequest)
    (h : self.accepts q) :
    self.handlerCalls w q =
      [(⟨q, (self.matchesPath q.URLPath).2⟩, ⟨w, q.HeaderGet HEADER_Accept⟩)] := by
  have hr := dispatch_of_accepts self.recording w q []
    ((recording_accepts self q).2 h)
  simp only [Route.handlerCalls, hr]
  rfl

/-- The status code of `dispatch` as a cascade of the four checks. -/
theorem dispatch_fst (self : Route σ ω) (w : ω) (q : HttpRequest) (s : σ) :
    (self.dispatch w q s).1 =
      if (self.matchesPath q.URLPath).1 = false then 404
      else if self.Method ≠ q.Method then 405
      else if self.matchesAccept (q.HeaderGet HEADER_Accept) = false then 415
      else if (q.Method = ascii "POST" ∨ q.Method = ascii "PUT") ∧
          self.matchesContentType (q.HeaderGet HEADER_ContentType) = false then 415
      else 0 := by
  rcases hm : self.matchesPath q.URLPath with ⟨b, p⟩
  simp only [Route.dispatch, hm, StatusNotFound, StatusMethodNotAllowed,
    StatusUnsupportedMediaType, RouteFunctionCalled]
  split_ifs <;> rfl

/-- Claim C11. Two requests that agree on method, path and Accept header and whose
method is neither POST nor PUT get the same status code from `dispatch`, and the
handler is called for both or for neither, whatever their Content-Type headers are. -/
theorem dispatch_ignores_content_type (self : Route σ ω) (w : ω) (q1 q2 : HttpRequest)
    (s : σ) (hm : q1.Method = q2.Method) (hp : q1.URLPath = q2.URLPath)
    (ha : q1.HeaderGet HEADER_Accept = q2.HeaderGet HEADER_Accept)
    (h1 : q1.Method ≠ ascii "POST") (h2 : q1.Method ≠ ascii "PUT") :
    (self.dispatch w q1 s).1 = (self.dispatch w q2 s).1 ∧
      (self.handlerCalls w q1 = [] ↔ self.handlerCalls w q2 = []) ∧
      (self.handlerCalls w q1).length = (self.handlerCalls w q2).length := by
  have h3 : q2.Method ≠ ascii "POST" := hm ▸ h1
  have h4 : q2.Method ≠ ascii "PUT" := hm ▸ h2
  have hacc : self.accepts q1 ↔ self.accepts q2 := by
    simp only [Route.accepts, hm, hp, ha, h3, h4, ne_eq, not_false_eq_true, and_self,
      true_or]
  refine ⟨?_, ?_, ?_⟩
  · rw [dispatch_fst, dispatch_fst]
    simp only [hm, hp, ha, h3, h4, false_or, false_and, if_false]
  · rw [handlerCalls_eq_nil_iff, handlerCalls_eq_nil_iff, hacc]
  · by_cases hq : self.accepts q1
    · rw [handlerCalls_of_accepts self w q1 hq,
        handlerCalls_of_accepts self w q2 (hacc.1 hq)]
      rfl
    · rw [(handlerCalls_eq_nil_iff self w q1).2 hq,
        (handlerCalls_eq_nil_iff self w q2).2 (fun h => hq (hacc.2 h))]

/-- Claim C11 at two GET requests for `/notes` that differ in their Content-Type
header only. -/
theorem dispatch_ignores_content_type_witness :
    (notesRequest (ascii "GET") (ascii "application/json")
        (ascii "text/plain")).HeaderGet HEADER_ContentType ≠
      (notesRequest (ascii "GET") (ascii "application/json")
        (ascii "application/xml")).HeaderGet HEADER_ContentType ∧
    ((getNotesRoute.dispatch ()
        (notesRequest (ascii "GET") (ascii "application/json") (ascii "text/plain")) 0).1 =
      (getNotesRoute.dispatch ()
        (notesRequest (ascii "GET") (ascii "application/json")
          (ascii "application/xml")) 0).1 ∧
      (getNotesRoute.handlerCalls ()
          (notesRequest (ascii "GET") (ascii "application/json") (ascii "text/plain")) = [] ↔
        getNotesRoute.handlerCalls ()
          (notesRequest (ascii "GET") (ascii "application/json")
            (ascii "application/xml")) = []) ∧
      (getNotesRoute.handlerCalls ()
          (notesRequest (ascii "GET") (ascii "application/json")
            (ascii "text/plain"))).length =
        (getNotesRoute.handlerCalls ()
          (notesRequest (ascii "GET") (ascii "application/json")
            (ascii "application/xml"))).length) :=
  ⟨by decide,
    dispatch_ignores_content_type getNotesRoute ()
      (notesRequest (ascii "GET") (ascii "application/json") (ascii "text/plain"))
      (notesRequest (ascii "GET") (ascii "application/json") (ascii "application/xml"))
      0 rfl rfl rfl (by decide) (by decide)⟩

/-- Claim C12. For a request whose path matches, `dispatch` returns 405 exactly when the
request method differs from `Route.Method` as a string, whatever the Accept and
Content-Type headers are. -/
theorem dispatch_method_not_allowed_iff (self : Route σ ω) (w : ω) (q : HttpRequest)
    (s : σ) (hp : (self.matchesPath q.URLPath).1 = true) :
    (self.dispatch w q s).1 = 405 ↔ q.Method ≠ self.Method := by
  rw [dispatch_fst]
  have hp2 : ¬ (self.matchesPath q.URLPath).1 = false := by
    rw [hp]
    decide
  rw [if_neg hp2]
  by_cases hm : self.Method = q.Method
  · have hm2 : ¬ self.Method ≠ q.Method := fun h => h hm
    rw [if_neg hm2]
    constructor
    · intro h
      split_ifs at h <;> exact absurd h (by decide)
    · intro h
      exact absurd hm.symm h
  · rw [if_pos hm]
    exact ⟨fun _ h => hm h.symm, fun _ => rfl⟩

/-- Claim C12 at the route `GET /notes`: a HEAD request and a request with the method
written `get` both get 405, also with headers that fail the negotiation. -/
theorem dispatch_method_not_allowed_iff_witness :
    ((getNotesRoute.dispatch ()
        (notesRequest (ascii "HEAD") (ascii "text/html") (ascii "text/plain")) 0).1 = 405 ↔
      (notesRequest (ascii "HEAD") (ascii "text/html") (ascii "text/plain")).Method ≠
        getNotesRoute.Method) ∧
    (getNotesRoute.dispatch ()
      (notesRequest (ascii "HEAD") (ascii "text/html") (ascii "text/plain")) 0).1 = 405 ∧
    (getNotesRoute.dispatch ()
      (notesRequest (ascii "get") (ascii "application/json") []) 0).1 = 405 ∧
    getNotesRoute.matchesAccept (ascii "text/html") = false :=
  ⟨dispatch_method_not_allowed_iff getNotesRoute ()
      (notesRequest (ascii "HEAD") (ascii "text/html") (ascii "text/plain")) 0 (by decide),
    by decide, by decide, by decide⟩

/-- Claim C13. A request that passes all checks of the route `GET /notes` is handled,
with one call to the handler, and `dispatch` returns 0, the value of
`RouteFunctionCalled`, which is not `http.StatusOK` (200); no request gets 200 from
any route. -/
theorem dispatch_match_returns_zero :
    (getNotesRoute.matchesPath
        (notesRequest (ascii "GET") (ascii "application/json") []).URLPath).1 = true ∧
      (notesRequest (ascii "GET") (ascii "application/json") []).Method =
        getNotesRoute.Method ∧
      getNotesRoute.matchesAccept
        ((notesRequest (ascii "GET") (ascii "application/json") []).HeaderGet
          HEADER_Accept) = true ∧
      getNotesRoute.dispatch ()
        (notesRequest (ascii "GET") (ascii "application/json") []) 0 =
          (RouteFunctionCalled, 1) ∧
      (getNotesRoute.dispatch ()
        (notesRequest (ascii "GET") (ascii "application/json") []) 0).1 ≠ 200 ∧
      (getNotesRoute.handlerCalls ()
        (notesRequest (ascii "GET") (ascii "application/json") [])).length = 1 ∧
      (∀ (self : Route Nat Unit) (q : HttpRequest) (s : Nat),
        (self.dispatch () q s).1 ≠ 200) := by
  refine ⟨by decide, by decide, by decide, by decide, by decide, by decide, ?_⟩
  intro self q s
  rw [dispatch_fst]
  split_ifs <;> decide

/-- Claim C14, as the claim states it, fails: for the Accept header
`text/html,application/json;q=0.9` and Produces `application/json` the handler is
called with a response view that carries the whole header value, which is none of the
candidates of the header, neither raw nor cut at the semicolon. -/
theorem dispatch_response_accept_counterexample :
    (getNotesRoute.dispatch ()
        (notesRequest (ascii "GET") (ascii "text/html,application/json;q=0.9") []) 0).1
        = 0 ∧
      (getNotesRoute.handlerCalls ()
        (notesRequest (ascii "GET") (ascii "text/html,application/json;q=0.9") [])).map
          (fun call => call.2.accept) = [ascii "text/html,application/json;q=0.9"] ∧
      strings.Split (ascii "text/html,application/json;q=0.9") (byte ',') =
        [ascii "text/html", ascii "application/json;q=0.9"] ∧
      ascii "text/html,application/json;q=0.9" ∉
        strings.Split (ascii "text/html,application/json;q=0.9") (byte ',') ∧
      ascii "text/html,application/json;q=0.9" ∉
        (strings.Split (ascii "text/html,application/json;q=0.9") (byte ',')).map
          (fun each => (strings.Split each (byte ';')).headD []) := by
  refine ⟨by decide, by decide, by decide, by decide, by decide⟩

/-- Claim C14, amended. On a successful dispatch the handler is called once, with a
request view that carries the original request and the parameter map, and a response
view that carries the writer and the whole value of the Accept header of the
request. -/
theorem dispatch_response_accept (self : Route σ ω) (w : ω) (q : HttpRequest) (s : σ)
    (h : (self.dispatch w q s).1 = 0) :
    self.handlerCalls w q =
        [(⟨q, (self.matchesPath q.URLPath).2⟩, ⟨w, q.HeaderGet HEADER_Accept⟩)] ∧
      (∀ call ∈ self.handlerCalls w q, call.2.accept = q.HeaderGet HEADER_Accept) ∧
      (self.dispatch w q s).2 =
        self.Function ⟨q, (self.matchesPath q.URLPath).2⟩
          ⟨w, q.HeaderGet HEADER_Accept⟩ s := by
  have ha : self.accepts q := (dispatch_code_zero_iff self w q s).1 h
  have hc := handlerCalls_of_accepts self w q ha
  refine ⟨hc, ?_, ?_⟩
  · intro call hmem
    rw [hc, List.mem_singleton] at hmem
    rw [hmem]
  · rw [dispatch_of_accepts self w q s ha]

/-- Claim C14, amended, at the route `GET /notes` and the Accept header
`text/html,application/json;q=0.9`. -/
theorem dispatch_response_accept_witness :
    getNotesRoute.handlerCalls ()
        (notesRequest (ascii "GET") (ascii "text/html,application/json;q=0.9") []) =
        [(⟨notesRequest (ascii "GET") (ascii "text/html,application/json;q=0.9") [],
            (getNotesRoute.matchesPath
              (notesRequest (ascii "GET") (ascii "text/html,application/json;q=0.9")
                []).URLPath).2⟩,
          ⟨(), (notesRequest (ascii "GET") (ascii "text/html,application/json;q=0.9")
            []).HeaderGet HEADER_Accept⟩)] ∧
      (∀ call ∈ getNotesRoute.handlerCalls ()
          (notesRequest (ascii "GET") (ascii "text/html,application/json;q=0.9") []),
        call.2.accept =
          (notesRequest (ascii "GET") (ascii "text/html,application/json;q=0.9")
            []).HeaderGet HEADER_Accept) ∧
      (getNotesRoute.dispatch ()
          (notesRequest (ascii "GET") (ascii "text/html,application/json;q=0.9") []) 0).2 =
        getNotesRoute.Function
          ⟨notesRequest (ascii "GET") (ascii "text/html,application/json;q=0.9") [],
            (getNotesRoute.matchesPath
              (notesRequest (ascii "GET") (ascii "text/html,application/json;q=0.9")
                []).URLPath).2⟩
          ⟨(), (notesRequest (ascii "GET") (ascii "text/html,application/json;q=0.9")
            []).HeaderGet HEADER_Accept⟩ 0 :=
  dispatch_response_accept getNotesRoute ()
    (notesRequest (ascii "GET") (ascii "text/html,application/json;q=0.9") []) 0
    (by decide)

/-! ## Empty headers and routes that were not built -/

theorem matchesAcceptLoop_empty (produces : GoString) :
    matchesAcceptLoop produces (strings.Split [] (byte ',')) = true := by
  rw [matchesAcceptLoop_iff]
  exact ⟨[], by simp [strings.Split], by simp⟩

theorem matchesContentTypeLoop_empty (consumes : GoString) :
    matchesContentTypeLoop consumes (strings.Split [] (byte ',')) = true := by
  rw [matchesContentTypeLoop_iff]
  exact ⟨[], by simp [strings.Split], by simp⟩

theorem matchesAccept_empty (self : Route σ ω) : self.matchesAccept [] = true := by
  simp only [Route.matchesAccept]
  split_ifs
  · rfl
  · exact matchesAcceptLoop_empty _

theorem matchesContentType_empty (self : Route σ ω) :
    self.matchesContentType [] = true := by
  simp only [Route.matchesContentType]
  split_ifs
  · rfl
  · exact matchesContentTypeLoop_empty _

/-- Claim C17. For every route `matchesAccept` and `matchesContentType` hold for the
empty header value, and a request whose Accept and Content-Type headers are both empty
is never answered with 415. -/
theorem dispatch_empty_headers (self : Route σ ω) (w : ω) (q : HttpRequest) (s : σ)
    (ha : q.HeaderGet HEADER_Accept = []) (hc : q.HeaderGet HEADER_ContentType = []) :
    self.matchesAccept [] = true ∧ self.matchesContentType [] = true ∧
      (self.dispatch w q s).1 ≠ 415 := by
  refine ⟨matchesAccept_empty self, matchesContentType_empty self, ?_⟩
  rw [dispatch_fst, ha, hc, matchesAccept_empty, matchesContentType_empty]
  have hf : ¬ (true = false) := by decide
  have hg : ¬ ((q.Method = ascii "POST" ∨ q.Method = ascii "PUT") ∧ true = false) :=
    fun h => hf h.2
  rw [if_neg hf, if_neg hg]
  split_ifs <;> decide

/-- Claim C17 at the route `PUT /users/{id}`, whose Produces and Consumes are no
wildcards, and a PUT request without headers. -/
theorem dispatch_empty_headers_witness :
    putUserRoute.matchesAccept [] = true ∧ putUserRoute.matchesContentType [] = true ∧
      (putUserRoute.dispatch ()
        { Method := ascii "PUT", URLPath := ascii "/users/42", HeaderGet := fun _ => [] }
        0).1 ≠ 415 :=
  dispatch_empty_headers putUserRoute ()
    { Method := ascii "PUT", URLPath := ascii "/users/42", HeaderGet := fun _ => [] }
    0 rfl rfl

/-- Claim C19. A route whose `pathParts` is empty, as it is before `postBuild`, matches
no path: `matchesPath` returns false with the nil map for every path, `dispatch`
returns 404 for every request and the handler is not called. -/
theorem dispatch_unbuilt_route (self : Route σ ω) (h : self.pathParts = []) (w : ω)
    (q : HttpRequest) (s : σ) :
    (∀ R : GoString, self.matchesPath R = (false, none)) ∧
      self.dispatch w q s = (404, s) ∧ self.handlerCalls w q = [] := by
  have hall : ∀ R : GoString, self.matchesPath R = (false, none) := by
    intro R
    apply matchesPath_of_length_ne
    rw [h]
    intro h0
    exact strings.Split_ne_nil R (byte '/') (List.length_eq_zero.1 h0.symm)
  have hna : ¬ self.accepts q := by
    intro hacc
    have h1 := hacc.1
    rw [hall q.URLPath] at h1
    exact absurd h1 (by decide)
  refine ⟨hall, ?_, (handlerCalls_eq_nil_iff self w q).2 hna⟩
  have h2 := (dispatch_of_not_accepts self w q s hna).1
  have h3 := dispatch_fst self w q s
  rw [hall q.URLPath] at h3
  simp only [if_true] at h3
  exact Prod.ext h3 h2

/-- Claim C19 at the declaration `PUT /users/{id}` before `postBuild`, with a request
that the built route matches. -/
theorem dispatch_unbuilt_route_witness :
    (putUserRoute.matchesPath putJsonRequest.URLPath).1 = true ∧
      ((∀ R : GoString, userTemplate.matchesPath R = (false, none)) ∧
        userTemplate.dispatch () putJsonRequest 0 = (404, 0) ∧
        userTemplate.handlerCalls () putJsonRequest = []) :=
  ⟨by decide, dispatch_unbuilt_route userTemplate rfl () putJsonRequest 0⟩

/-! ## Accept negotiation over a list of candidates -/

theorem strings.Split_append_sep (a b : GoString) (sep : Nat) :
    strings.Split (a ++ sep :: b) sep = strings.Split a sep ++ strings.Split b sep := by
  induction a with
  | nil => simp [strings.Split]
  | cons c a ih =>
    rw [List.cons_append]
    simp only [strings.Split]
    rw [ih]
    rcases hs : strings.Split a sep with _ | ⟨hd, tl⟩
    · exact absurd hs (strings.Split_ne_nil a sep)
    · by_cases hc : c = sep
      · simp [hc]
      · simp [hc]

theorem matchesAcceptLoop_append (produces : GoString) (xs ys : List GoString) :
    matchesAcceptLoop produces (xs ++ ys) =
      (matchesAcceptLoop produces xs || matchesAcceptLoop produces ys) := by
  induction xs with
  | nil => simp [matchesAcceptLoop]
  | cons each rest ih =>
    rw [List.cons_append]
    simp only [matchesAcceptLoop]
    split_ifs
    · rfl
    · exact ih

/-- Claim C20. For every route and all header values `a` and `b`, `matchesAccept` of
`a`, a comma and `b` is the disjunction of `matchesAccept a` and `matchesAccept b`; so
a header that is accepted stays accepted when candidates are added on either side, and
the result is the same when `a` and `b` change places. -/
theorem matchesAccept_comma (self : Route σ ω) (a b : GoString) :
    self.matchesAccept (a ++ ascii "," ++ b) =
        (self.matchesAccept a || self.matchesAccept b) ∧
      (self.matchesAccept a = true → self.matchesAccept (a ++ ascii "," ++ b) = true) ∧
      (self.matchesAccept b = true → self.matchesAccept (a ++ ascii "," ++ b) = true) ∧
      self.matchesAccept (a ++ ascii "," ++ b) =
        self.matchesAccept (b ++ ascii "," ++ a) := by
  have key : ∀ x y : GoString, self.matchesAccept (x ++ ascii "," ++ y) =
      (self.matchesAccept x || self.matchesAccept y) := by
    intro x y
    have hxy : x ++ ascii "," ++ y = x ++ byte ',' :: y := by
      rw [List.append_assoc]
      rfl
    simp only [Route.matchesAccept]
    split_ifs
    · rfl
    · rw [hxy, strings.Split_append_sep, matchesAcceptLoop_append]
  refine ⟨key a b, ?_, ?_, ?_⟩
  · intro h
    rw [key, h]
    rfl
  · intro h
    rw [key, h, Bool.or_true]
  · rw [key, key, Bool.or_comm]

/-! ## Splitting, joining and trimming -/

theorem intercalate_cons_head (sep c : Nat) (hd : GoString) (tl : List GoString) :
    List.intercalate [sep] ((c :: hd) :: tl) = c :: List.intercalate [sep] (hd :: tl) := by
  cases tl <;> simp [List.intercalate, List.intersperse]

/-- Joining the pieces of `strings.Split` with the separator gives the string back. -/
theorem strings.intercalate_Split (s : GoString) (sep : Nat) :
    List.intercalate [sep] (strings.Split s sep) = s := by
  induction s with
  | nil => simp [strings.Split, List.intercalate, List.intersperse]
  | cons c cs ih =>
    simp only [strings.Split]
    rcases hs : strings.Split cs sep with _ | ⟨hd, tl⟩
    · exact absurd hs (strings.Split_ne_nil cs sep)
    · rw [hs] at ih
      by_cases hc : c = sep
      · rw [if_pos hc]
        have h1 : List.intercalate [sep] ([] :: hd :: tl) =
            sep :: List.intercalate [sep] (hd :: tl) := by
          simp [List.intercalate, List.intersperse]
        rw [h1, ih, hc]
      · rw [if_neg hc]
        simp only [List.headD_cons, List.tail_cons]
        rw [intercalate_cons_head, ih]

/-- Two strings with the same pieces are equal. -/
theorem strings.Split_injective (a b : GoString) (sep : Nat)
    (h : strings.Split a sep = strings.Split b sep) : a = b := by
  rw [← strings.intercalate_Split a sep, ← strings.intercalate_Split b sep, h]

/-- No piece of `strings.Split` contains the separator. -/
theorem strings.Split_no_sep (s : GoString) (sep : Nat) :
    ∀ piece ∈ strings.Split s sep, sep ∉ piece := by
  induction s with
  | nil =>
    intro piece hp
    simp only [strings.Split, List.mem_singleton] at hp
    rw [hp]
    exact List.not_mem_nil _
  | cons c cs ih =>
    intro piece hp
    simp only [strings.Split] at hp
    rcases hs : strings.Split cs sep with _ | ⟨hd, tl⟩
    · exact absurd hs (strings.Split_ne_nil cs sep)
    · rw [hs] at hp ih
      by_cases hc : c = sep
      · rw [if_pos hc] at hp
        rcases List.mem_cons.1 hp with h1 | h1
        · rw [h1]
          exact List.not_mem_nil _
        · exact ih piece h1
      · rw [if_neg hc] at hp
        simp only [List.headD_cons, List.tail_cons] at hp
        rcases List.mem_cons.1 hp with h1 | h1
        · rw [h1]
          intro hmem
          rcases List.mem_cons.1 hmem with h2 | h2
          · exact hc h2.symm
          · exact ih hd (List.mem_cons_self _ _) h2
        · exact ih piece (List.mem_cons_of_mem _ h1)

theorem rdropWhile_append_rtakeWhile_self (p : Nat → Bool) (l : GoString) :
    l.rdropWhile p ++ l.rtakeWhile p = l := by
  simp only [List.rdropWhile, List.rtakeWhile]
  rw [← List.reverse_append, List.takeWhile_append_dropWhile, List.reverse_reverse]

/-- The shape of `strings.Trim`: the string is the trimmed string between a run of
cutset bytes on each side, and the trimmed string neither starts nor ends with a
cutset byte. -/
theorem strings.Trim_spec (s cutset : GoString) :
    ∃ pre post : GoString, s = pre ++ strings.Trim s cutset ++ post ∧
      (∀ c ∈ pre, c ∈ cutset) ∧ (∀ c ∈ post, c ∈ cutset) ∧
      (∀ c, (strings.Trim s cutset).head? = some c → c ∉ cutset) ∧
      (∀ c, (strings.Trim s cutset).getLast? = some c → c ∉ cutset) := by
  have htrim : strings.Trim s cutset =
      (s.dropWhile (fun c => decide (c ∈ cutset))).rdropWhile
        (fun c => decide (c ∈ cutset)) := rfl
  refine ⟨s.takeWhile (fun c => decide (c ∈ cutset)),
    (s.dropWhile (fun c => decide (c ∈ cutset))).rtakeWhile
      (fun c => decide (c ∈ cutset)), ?_, ?_, ?_, ?_, ?_⟩
  · rw [htrim, List.append_assoc, rdropWhile_append_rtakeWhile_self,
      List.takeWhile_append_dropWhile]
  · intro c hc
    simpa using List.mem_takeWhile_imp hc
  · intro c hc
    rw [List.rtakeWhile, List.mem_reverse] at hc
    simpa using List.mem_takeWhile_imp hc
  · intro c hc hmem
    have hne : strings.Trim s cutset ≠ [] := by
      intro h0
      rw [h0] at hc
      exact absurd hc (by simp)
    have hpre : strings.Trim s cutset <+: s.dropWhile (fun c => decide (c ∈ cutset)) := by
      rw [htrim]
      exact List.rdropWhile_prefix _ _
    obtain ⟨t, ht⟩ := hpre
    have hhead : (s.dropWhile (fun c => decide (c ∈ cutset))).head? = some c := by
      rw [← ht, List.head?_append_of_ne_nil _ hne, hc]
    have hnot := List.head?_dropWhile_not (fun c => decide (c ∈ cutset)) s
    rw [hhead] at hnot
    simp [hmem] at hnot
  · intro c hc hmem
    have hne : strings.Trim s cutset ≠ [] := by
      intro h0
      rw [h0] at hc
      exact absurd hc (by simp)
    have hlast := List.rdropWhile_last_not (fun c => decide (c ∈ cutset))
      (s.dropWhile (fun c => decide (c ∈ cutset))) (htrim ▸ hne)
    have hc2 : ((s.dropWhile (fun c => decide (c ∈ cutset))).rdropWhile
        (fun c => decide (c ∈ cutset))).getLast? = some c := htrim ▸ hc
    rw [List.getLast?_eq_getLast _ (htrim ▸ hne), Option.some.injEq] at hc2
    rw [hc2] at hlast
    simp only [decide_eq_true_eq] at hlast
    exact hlast hmem

/-! ## Parameter names, literal templates and the round trip of a match -/

/-- The map of a successful `matchesPath`, described by the loop invariant. -/
theorem matchesPath_params_of_match (self : Route σ ω) (R : GoString)
    (h : (self.postBuild.matchesPath R).1 = true) :
    ∃ m : Table, self.postBuild.matchesPath R = (true, some m) ∧
      matchesPathLoop (strings.Split R (byte '/')) 0
        (strings.Split self.Path (byte '/')) [] = (true, some m) ∧
      (∀ n : GoString, n ∈ m.keys ↔
        ∃ key ∈ strings.Split self.Path (byte '/'),
          strings.HasPrefix key (ascii "\x7b") = true ∧
            strings.Trim key (ascii "\x7b\x7d") = n) := by
  have hlen := matchesPath_length_of_match self R h
  have hloop := matchesPath_eq_loop self R hlen
  rcases matchesPathLoop_shape (strings.Split R (byte '/')) 0
    (strings.Split self.Path (byte '/')) [] with hs | ⟨m, hs⟩
  · rw [hloop, hs] at h
    exact absurd h (by decide)
  · obtain ⟨_, h2, _, _⟩ := matchesPathLoop_params _ 0 _ [] m hs (by simp [Table.keys])
    refine ⟨m, hloop.trans hs, hs, ?_⟩
    intro n
    rw [h2]
    simp only [Table.keys, List.map_nil, List.not_mem_nil, false_or]

/-- Claim C15. The name bound for a template segment that starts with an opening brace
is the segment trimmed of braces: the segment is the name between a run of braces on
each side, the name neither starts nor ends with a brace, and the name is a key of the
map of a successful match. -/
theorem matchesPath_parameter_name (self : Route σ ω) (R key : GoString)
    (h : (self.postBuild.matchesPath R).1 = true)
    (hk : key ∈ strings.Split self.Path (byte '/')) (hp : ascii "\x7b" <+: key) :
    ∃ (m : Table) (pre post : GoString),
      self.postBuild.matchesPath R = (true, some m) ∧
      strings.Trim key (ascii "\x7b\x7d") ∈ m.keys ∧
      key = pre ++ strings.Trim key (ascii "\x7b\x7d") ++ post ∧
      (∀ c ∈ pre, c ∈ ascii "\x7b\x7d") ∧ (∀ c ∈ post, c ∈ ascii "\x7b\x7d") ∧
      (∀ c, (strings.Trim key (ascii "\x7b\x7d")).head? = some c →
        c ∉ ascii "\x7b\x7d") ∧
      (∀ c, (strings.Trim key (ascii "\x7b\x7d")).getLast? = some c →
        c ∉ ascii "\x7b\x7d") := by
  obtain ⟨m, hm, _, hkeys⟩ := matchesPath_params_of_match self R h
  obtain ⟨pre, post, h1, h2, h3, h4, h5⟩ := strings.Trim_spec key (ascii "\x7b\x7d")
  exact ⟨m, pre, post, hm,
    (hkeys _).2 ⟨key, hk, (strings.HasPrefix_iff _ _).2 hp, rfl⟩, h1, h2, h3, h4, h5⟩

/-- Claim C15 at the three segments of the claim, each matched against the request
path `/7`: `{id}x` binds `id}x`, `{{id}}` binds `id`, and `{}` binds the empty name. -/
theorem matchesPath_parameter_name_witness :
    (getTemplate (ascii "/\x7bid\x7dx")).postBuild.matchesPath (ascii "/7") =
        (true, some [(ascii "id\x7dx", ascii "7")]) ∧
      (getTemplate (ascii "/\x7b\x7bid\x7d\x7d")).postBuild.matchesPath (ascii "/7") =
        (true, some [(ascii "id", ascii "7")]) ∧
      (getTemplate (ascii "/\x7b\x7d")).postBuild.matchesPath (ascii "/7") =
        (true, some [([], ascii "7")]) ∧
      ∃ (m : Table) (pre post : GoString),
        (getTemplate (ascii "/\x7bid\x7dx")).postBuild.matchesPath (ascii "/7") =
          (true, some m) ∧
        strings.Trim (ascii "\x7bid\x7dx") (ascii "\x7b\x7d") ∈ m.keys ∧
        ascii "\x7bid\x7dx" =
          pre ++ strings.Trim (ascii "\x7bid\x7dx") (ascii "\x7b\x7d") ++ post ∧
        (∀ c ∈ pre, c ∈ ascii "\x7b\x7d") ∧ (∀ c ∈ post, c ∈ ascii "\x7b\x7d") ∧
        (∀ c, (strings.Trim (ascii "\x7bid\x7dx") (ascii "\x7b\x7d")).head? = some c →
          c ∉ ascii "\x7b\x7d") ∧
        (∀ c, (strings.Trim (ascii "\x7bid\x7dx") (ascii "\x7b\x7d")).getLast? = some c →
          c ∉ ascii "\x7b\x7d") :=
  ⟨by decide, by decide, by decide,
    matchesPath_parameter_name (getTemplate (ascii "/\x7bid\x7dx")) (ascii "/7")
      (ascii "\x7bid\x7dx") (by decide) (by decide) (by decide)⟩

/-- A loop over literal segments only returns the map it started with. -/
theorem matchesPathLoop_literal (u : List GoString) (i : Nat) (rest : List GoString)
    (params m : Table)
    (hlit : ∀ key ∈ rest, strings.HasPrefix key (ascii "\x7b") = false)
    (h : matchesPathLoop u i rest params = (true, some m)) : m = params := by
  induction rest generalizing i with
  | nil =>
    simp only [matchesPathLoop, Prod.mk.injEq, Option.some.injEq, true_and] at h
    exact h.symm
  | cons key rest ih =>
    have hkey := hlit key (List.mem_cons_self _ _)
    have hstep : matchesPathLoop u i (key :: rest) params =
        if strings.HasPrefix key (ascii "\x7b") = true then
          matchesPathLoop u (i + 1) rest
            (params.set (strings.Trim key (ascii "\x7b\x7d")) (u.getD i []))
        else if key ≠ u.getD i [] then (false, none)
        else matchesPathLoop u (i + 1) rest params := rfl
    have hnot : ¬ strings.HasPrefix key (ascii "\x7b") = true := by
      rw [hkey]
      decide
    rw [hstep, if_neg hnot] at h
    by_cases h2 : key ≠ u.getD i []
    · rw [if_pos h2] at h
      exact absurd h (by simp)
    · rw [if_neg h2] at h
      exact ih (i + 1) (fun k hk => hlit k (List.mem_cons_of_mem _ hk)) h

/-- Claim C16. For a built route whose path template has no segment starting with an
opening brace, `matchesPath` succeeds exactly on the request path equal to `Path`, then
with the empty non-nil map, and returns false with the nil map on every other path. -/
theorem matchesPath_literal_template (self : Route σ ω) (R : GoString)
    (hlit : ∀ key ∈ strings.Split self.Path (byte '/'), ¬ (ascii "\x7b" <+: key)) :
    ((self.postBuild.matchesPath R).1 = true ↔ R = self.Path) ∧
      (R = self.Path → self.postBuild.matchesPath R = (true, some [])) ∧
      (R ≠ self.Path → self.postBuild.matchesPath R = (false, none)) := by
  have hlit2 : ∀ key ∈ strings.Split self.Path (byte '/'),
      strings.HasPrefix key (ascii "\x7b") = false := by
    intro key hk
    rw [← Bool.not_eq_true, strings.HasPrefix_iff]
    exact hlit key hk
  have hiff : (self.postBuild.matchesPath R).1 = true ↔ R = self.Path := by
    constructor
    · intro h
      have hlen := matchesPath_length_of_match self R h
      rw [matchesPath_eq_loop self R hlen, matchesPathLoop_fst_iff] at h
      apply strings.Split_injective R self.Path (byte '/')
      apply List.ext_getElem?
      intro n
      by_cases hn : n < (strings.Split self.Path (byte '/')).length
      · have hk := List.getElem?_eq_getElem hn
        have h1 := h n _ hk (hlit2 _ (List.getElem_mem _))
        rw [Nat.zero_add] at h1
        rw [hk, h1]
        exact getElem?_getD_of_lt _ n (hlen ▸ hn)
      · rw [List.getElem?_eq_none (Nat.le_of_not_lt hn),
          List.getElem?_eq_none (hlen ▸ Nat.le_of_not_lt hn)]
    · intro h
      rw [h, matchesPath_eq_loop self self.Path rfl, matchesPathLoop_fst_iff]
      intro j key hk _
      rw [Nat.zero_add]
      exact (getD_of_getElem? _ j key hk).symm
  have hshape : ∀ m : Table, self.postBuild.matchesPath R = (true, some m) → m = [] := by
    intro m hm
    have h1 : (self.postBuild.matchesPath R).1 = true := by rw [hm]
    have hlen := matchesPath_length_of_match self R h1
    rw [matchesPath_eq_loop self R hlen] at hm
    exact matchesPathLoop_literal _ 0 _ [] m hlit2 hm
  refine ⟨hiff, ?_, ?_⟩
  · intro h
    obtain ⟨m, hm, _, _⟩ := matchesPath_params_of_match self R (hiff.2 h)
    rw [hm, hshape m hm]
  · intro h
    by_cases hlen : (strings.Split self.Path (byte '/')).length =
        (strings.Split R (byte '/')).length
    · rw [matchesPath_eq_loop self R hlen]
      rcases matchesPathLoop_shape (strings.Split R (byte '/')) 0
        (strings.Split self.Path (byte '/')) [] with hs | ⟨m, hs⟩
      · exact hs
      · exfalso
        apply h
        apply hiff.1
        rw [matchesPath_eq_loop self R hlen, hs]
    · exact matchesPath_of_length_ne self.postBuild R hlen

/-- Claim C16 at the template `/users`: it matches `/users` with the empty map and
matches none of `users`, `/users/` and `/users/1`. -/
theorem matchesPath_literal_template_witness :
    (getTemplate (ascii "/users")).postBuild.matchesPath (ascii "/users") =
        (true, some []) ∧
      (getTemplate (ascii "/users")).postBuild.matchesPath (ascii "users") =
        (false, none) ∧
      (getTemplate (ascii "/users")).postBuild.matchesPath (ascii "/users/") =
        (false, none) ∧
      (getTemplate (ascii "/users")).postBuild.matchesPath (ascii "/users/1") =
        (false, none) ∧
      (((getTemplate (ascii "/users")).postBuild.matchesPath (ascii "/users/")).1 = true ↔
        ascii "/users/" = (getTemplate (ascii "/users")).Path) ∧
      (ascii "/users/" = (getTemplate (ascii "/users")).Path →
        (getTemplate (ascii "/users")).postBuild.matchesPath (ascii "/users/") =
          (true, some [])) ∧
      (ascii "/users/" ≠ (getTemplate (ascii "/users")).Path →
        (getTemplate (ascii "/users")).postBuild.matchesPath (ascii "/users/") =
          (false, none)) :=
  ⟨by decide, by decide, by decide, by decide,
    matchesPath_literal_template (getTemplate (ascii "/users")) (ascii "/users/")
      (by decide)⟩

/-- Claim C18. For a built route whose parameter segments have pairwise distinct names,
a successful match can be undone: the template segments, with each segment that starts
with an opening brace replaced by the value bound to its name, joined with "/" give the
request path; and no value of the map contains the byte "/". -/
theorem matchesPath_round_trip (self : Route σ ω) (R : GoString) (m : Table)
    (h : self.postBuild.matchesPath R = (true, some m))
    (hd : ∀ (i j : Nat) (key key2 : GoString), i < j →
      (strings.Split self.Path (byte '/'))[i]? = some key →
      (strings.Split self.Path (byte '/'))[j]? = some key2 →
      ascii "\x7b" <+: key → ascii "\x7b" <+: key2 →
      strings.Trim key (ascii "\x7b\x7d") ≠ strings.Trim key2 (ascii "\x7b\x7d")) :
    List.intercalate (ascii "/")
        ((strings.Split self.Path (byte '/')).map (fun key =>
          if strings.HasPrefix key (ascii "\x7b") = true
          then (m.get (strings.Trim key (ascii "\x7b\x7d"))).getD []
          else key)) = R ∧
      (∀ n v : GoString, m.get n = some v → byte '/' ∉ v) := by
  have h1 : (self.postBuild.matchesPath R).1 = true := by rw [h]
  have hlen := matchesPath_length_of_match self R h1
  have hloop : matchesPathLoop (strings.Split R (byte '/')) 0
      (strings.Split self.Path (byte '/')) [] = (true, some m) := by
    rw [← matchesPath_eq_loop self R hlen]
    exact h
  obtain ⟨_, hkeys, _, hget⟩ :=
    matchesPathLoop_params _ 0 _ [] m hloop (by simp [Table.keys])
  have hfst := (matchesPathLoop_fst_iff (strings.Split R (byte '/')) 0
    (strings.Split self.Path (byte '/')) []).1 (by rw [hloop])
  have hbound : ∀ (i : Nat) (key : GoString),
      (strings.Split self.Path (byte '/'))[i]? = some key →
      strings.HasPrefix key (ascii "\x7b") = true →
      m.get (strings.Trim key (ascii "\x7b\x7d")) =
        some ((strings.Split R (byte '/')).getD i []) := by
    intro i key hk hp
    have h2 := hget i key hk hp (by
      intro j2 key2 hlt hk2 hp2
      exact (hd i j2 key key2 hlt hk hk2 ((strings.HasPrefix_iff _ _).1 hp)
        ((strings.HasPrefix_iff _ _).1 hp2)).symm)
    rw [Nat.zero_add] at h2
    exact h2
  constructor
  · have hparts : (strings.Split self.Path (byte '/')).map (fun key =>
          if strings.HasPrefix key (ascii "\x7b") = true
          then (m.get (strings.Trim key (ascii "\x7b\x7d"))).getD []
          else key) = strings.Split R (byte '/') := by
      apply List.ext_getElem?
      intro n
      rw [List.getElem?_map]
      by_cases hn : n < (strings.Split self.Path (byte '/')).length
      · have hk := List.getElem?_eq_getElem hn
        rw [hk, getElem?_getD_of_lt _ n (hlen ▸ hn)]
        simp only [Option.map_some', Option.some.injEq]
        by_cases hp : strings.HasPrefix
            ((strings.Split self.Path (byte '/'))[n]) (ascii "\x7b") = true
        · rw [if_pos hp, hbound n _ hk hp]
          rfl
        · rw [if_neg hp]
          have h3 := hfst n _ hk (by simpa using hp)
          rw [Nat.zero_add] at h3
          exact h3
      · rw [List.getElem?_eq_none (Nat.le_of_not_lt hn),
          List.getElem?_eq_none (hlen ▸ Nat.le_of_not_lt hn)]
        rfl
    rw [hparts]
    exact strings.intercalate_Split R (byte '/')
  · intro n v hv
    have hmem : n ∈ m.keys := (Table.get_ne_none_iff m n).1 (by rw [hv]; simp)
    obtain ⟨key, hk, hp, hname⟩ :=
      ((hkeys n).1 hmem).resolve_left (by simp [Table.keys])
    obtain ⟨i, hi⟩ := List.getElem?_of_mem hk
    have h6 := hbound i key hi hp
    rw [hname, hv, Option.some.injEq] at h6
    have hlt : i < (strings.Split R (byte '/')).length := by
      rw [← hlen]
      exact (List.getElem?_eq_some_iff.1 hi).1
    have h7 := getElem?_getD_of_lt _ i hlt
    rw [← h6] at h7
    exact strings.Split_no_sep R (byte '/') v (List.getElem?_mem h7)

/-- Claim C18 at the template `/users/{id}/posts/{post}` and the request path
`/users/42/posts/7`. -/
theorem matchesPath_round_trip_witness :
    (getTemplate (ascii "/users/\x7bid\x7d/posts/\x7bpost\x7d")).postBuild.matchesPath
        (ascii "/users/42/posts/7") =
        (true, some [(ascii "post", ascii "7"), (ascii "id", ascii "42")]) ∧
      (List.intercalate (ascii "/")
        ((strings.Split (getTemplate (ascii "/users/\x7bid\x7d/posts/\x7bpost\x7d")).Path
          (byte '/')).map (fun key =>
            if strings.HasPrefix key (ascii "\x7b") = true
            then (Table.get [(ascii "post", ascii "7"), (ascii "id", ascii "42")]
              (strings.Trim key (ascii "\x7b\x7d"))).getD []
            else key)) = ascii "/users/42/posts/7" ∧
      (∀ n v : GoString,
        Table.get [(ascii "post", ascii "7"), (ascii "id", ascii "42")] n = some v →
        byte '/' ∉ v)) :=
  ⟨by decide,
    matchesPath_round_trip (getTemplate (ascii "/users/\x7bid\x7d/posts/\x7bpost\x7d"))
      (ascii "/users/42/posts/7") [(ascii "post", ascii "7"), (ascii "id", ascii "42")]
      (by decide) (by
        intro i j key key2 hlt hk hk2 hp hp2
        have hj : j < 5 := (List.getElem?_eq_some_iff.1 hk2).1
        have hkey : key =
            (strings.Split (ascii "/users/\x7bid\x7d/posts/\x7bpost\x7d")
              (byte '/')).getD i [] := (getD_of_getElem? _ i key hk).symm
        have hkey2 : key2 =
            (strings.Split (ascii "/users/\x7bid\x7d/posts/\x7bpost\x7d")
              (byte '/')).getD j [] := (getD_of_getElem? _ j key2 hk2).symm
        subst hkey hkey2
        interval_cases j <;> interval_cases i <;>
          first
          | exact absurd hp (by decide)
          | exact absurd hp2 (by decide)
          | decide)⟩

end Restful
